import Mathlib

/-!
Shallow embedding of `src/TextGen.js`, a thin client around a local
Ollama chat endpoint.  Pure data (payload objects, JSON values) becomes
inductive types; the HTTP transport and the filesystem become explicit
oracle functions passed to the embedded operations; `console.error`
output becomes an explicit list of diagnostic log entries; JavaScript
exceptions at the call sites that do not catch them become `Except`.
-/

namespace TextGen

/-- JSON values.  Numbers are kept exactly as a decimal mantissa and a
power-of-ten exponent (`num m e` denotes `m * 10 ^ e`); JavaScript uses
IEEE doubles, which agree with this exact representation on every value
this program manipulates (small integers). -/
inductive Json where
  | null : Json
  | bool (b : Bool) : Json
  | num (mantissa : Int) (exponent : Int) : Json
  | str (s : String) : Json
  | arr (elems : List Json) : Json
  | obj (members : List (String × Json)) : Json

/-! ### Model of `JSON.parse`

`extractTestArrayFromText` calls the platform builtin `JSON.parse` on
the substring captured by its regular expression.  The builtin is
modelled here by a recursive-descent parser over the character list of
the input, following the JSON grammar that `JSON.parse` implements
(ECMA-404 with insignificant whitespace `tab`, `LF`, `CR`, `space`). -/

/-- The whitespace characters that the JSON grammar treats as
insignificant. -/
def isJsonWs (c : Char) : Bool :=
  c = ' ' || c = '\t' || c = '\n' || c = '\r'

/-- Strip an expected literal run of characters from the front of the
input, returning the rest on success. -/
def stripToken : List Char → List Char → Option (List Char)
  | [], cs => some cs
  | _ :: _, [] => none
  | t :: ts, c :: cs => if c = t then stripToken ts cs else none

/-- Numeric value of one hexadecimal digit, for `\u` escapes. -/
def hexVal (c : Char) : Option Nat :=
  if '0' ≤ c ∧ c ≤ '9' then some (c.toNat - 48)
  else if 'a' ≤ c ∧ c ≤ 'f' then some (c.toNat - 87)
  else if 'A' ≤ c ∧ c ≤ 'F' then some (c.toNat - 70)
  else none

/-- Decode one JSON string escape sequence (the characters after a
backslash), returning the decoded character and the rest of the
input. -/
def decodeEscape : List Char → Option (Char × List Char)
  | [] => none
  | e :: r =>
    if e = '"' then some ('"', r)
    else if e = '\\' then some ('\\', r)
    else if e = '/' then some ('/', r)
    else if e = 'b' then some ('\x08', r)
    else if e = 'f' then some ('\x0c', r)
    else if e = 'n' then some ('\n', r)
    else if e = 'r' then some ('\r', r)
    else if e = 't' then some ('\t', r)
    else if e = 'u' then
      match r with
      | h1 :: h2 :: h3 :: h4 :: r2 =>
        match hexVal h1, hexVal h2, hexVal h3, hexVal h4 with
        | some a, some b, some c, some d =>
          some (Char.ofNat (((a * 16 + b) * 16 + c) * 16 + d), r2)
        | _, _, _, _ => none
      | _ => none
    else none

/-- Parse the body of a JSON string (the characters after the opening
quote), up to and including the closing quote.  Fueled; each step
consumes at least one character, so fuel `length + 1` never runs out. -/
def parseStringChars : Nat → List Char → Option (List Char × List Char)
  | 0, _ => none
  | _ + 1, [] => none
  | fuel + 1, c :: rest =>
    if c = '"' then some ([], rest)
    else if c = '\\' then
      match decodeEscape rest with
      | some (d, r2) =>
        match parseStringChars fuel r2 with
        | some (s, r3) => some (d :: s, r3)
        | none => none
      | none => none
    else if c.toNat < 32 then none
    else
      match parseStringChars fuel rest with
      | some (s, r2) => some (c :: s, r2)
      | none => none

/-- Parse a JSON string literal body, starting after the opening
quote. -/
def parseStringBody (cs : List Char) : Option (String × List Char) :=
  match parseStringChars (cs.length + 1) cs with
  | some (s, r) => some (String.mk s, r)
  | none => none

/-- Fold decimal digits into a natural number. -/
def digitsToNat (ds : List Char) : Nat :=
  ds.foldl (fun a c => a * 10 + (c.toNat - 48)) 0

/-- Parse the optional leading minus sign of a JSON number. -/
def parseSign (cs : List Char) : Bool × List Char :=
  match cs with
  | '-' :: r => (true, r)
  | _ => (false, cs)

/-- Parse the integer part of a JSON number: a lone `0`, or a nonzero
digit followed by any digits. -/
def parseIntPart : List Char → Option (List Char × List Char)
  | [] => none
  | c :: rest =>
    if !c.isDigit then none
    else if c = '0' then some ([c], rest)
    else some (c :: rest.takeWhile Char.isDigit, rest.dropWhile Char.isDigit)

/-- Parse the optional fraction part of a JSON number: a dot must be
followed by at least one digit. -/
def parseFracPart (cs : List Char) : Option (List Char × List Char) :=
  match cs with
  | '.' :: r =>
    if (r.takeWhile Char.isDigit).isEmpty then none
    else some (r.takeWhile Char.isDigit, r.dropWhile Char.isDigit)
  | _ => some ([], cs)

/-- Parse the optional sign of a JSON number exponent. -/
def parseExpSign (r : List Char) : Int × List Char :=
  match r with
  | '+' :: r3 => ((1 : Int), r3)
  | '-' :: r3 => ((-1 : Int), r3)
  | _ => ((1 : Int), r)

/-- Parse the optional exponent part of a JSON number: `e` or `E`, an
optional sign, and at least one digit. -/
def parseExpPart (cs : List Char) : Option (Int × List Char) :=
  match cs with
  | e :: r =>
    if e = 'e' ∨ e = 'E' then
      let sr := parseExpSign r
      let eds := sr.2.takeWhile Char.isDigit
      if eds.isEmpty then none
      else some (sr.1 * Int.ofNat (digitsToNat eds), sr.2.dropWhile Char.isDigit)
    else some (0, cs)
  | [] => some (0, cs)

/-- Parse a JSON number (sign, integer part, optional fraction,
optional exponent) into its exact mantissa/exponent form. -/
def parseNumber (cs : List Char) : Option (Json × List Char) :=
  let sg := parseSign cs
  match parseIntPart sg.2 with
  | none => none
  | some (intDigits, cs2) =>
    match parseFracPart cs2 with
    | none => none
    | some (fracDigits, cs3) =>
      match parseExpPart cs3 with
      | none => none
      | some (expVal, cs4) =>
        let mNat := digitsToNat (intDigits ++ fracDigits)
        let m : Int := if sg.1 then -(Int.ofNat mNat) else Int.ofNat mNat
        some (Json.num m (expVal - Int.ofNat fracDigits.length), cs4)

mutual

/-- Parse one JSON value, after skipping leading whitespace. -/
def parseValue : Nat → List Char → Option (Json × List Char)
  | 0, _ => none
  | fuel + 1, cs =>
    match cs.dropWhile isJsonWs with
    | [] => none
    | c :: rest =>
      if c = '\x7b' then parseObjStart fuel rest
      else if c = '[' then parseArrStart fuel rest
      else if c = '"' then
        match parseStringBody rest with
        | some (s, r) => some (Json.str s, r)
        | none => none
      else if c = 't' then
        match stripToken ['r', 'u', 'e'] rest with
        | some r => some (Json.bool true, r)
        | none => none
      else if c = 'f' then
        match stripToken ['a', 'l', 's', 'e'] rest with
        | some r => some (Json.bool false, r)
        | none => none
      else if c = 'n' then
        match stripToken ['u', 'l', 'l'] rest with
        | some r => some (Json.null, r)
        | none => none
      else if c = '-' ∨ c.isDigit then parseNumber (c :: rest)
      else none

/-- Parse the inside of a JSON array, starting after the opening
bracket. -/
def parseArrStart : Nat → List Char → Option (Json × List Char)
  | 0, _ => none
  | fuel + 1, cs =>
    match cs.dropWhile isJsonWs with
    | ']' :: rest => some (Json.arr [], rest)
    | _ =>
      match parseElems fuel cs with
      | some (vs, rest) => some (Json.arr vs, rest)
      | none => none

/-- Parse one or more comma-separated array elements, up to and
including the closing bracket. -/
def parseElems : Nat → List Char → Option (List Json × List Char)
  | 0, _ => none
  | fuel + 1, cs =>
    match parseValue fuel cs with
    | none => none
    | some (v, rest) =>
      match rest.dropWhile isJsonWs with
      | ',' :: r2 =>
        match parseElems fuel r2 with
        | some (vs, r3) => some (v :: vs, r3)
        | none => none
      | ']' :: r2 => some ([v], r2)
      | _ => none

/-- Parse the inside of a JSON object, starting after the opening
brace. -/
def parseObjStart : Nat → List Char → Option (Json × List Char)
  | 0, _ => none
  | fuel + 1, cs =>
    match cs.dropWhile isJsonWs with
    | '\x7d' :: rest => some (Json.obj [], rest)
    | _ =>
      match parseMembers fuel cs with
      | some (ms, rest) => some (Json.obj ms, rest)
      | none => none

/-- Parse one or more comma-separated object members, up to and
including the closing brace. -/
def parseMembers : Nat → List Char → Option (List (String × Json) × List Char)
  | 0, _ => none
  | fuel + 1, cs =>
    match cs.dropWhile isJsonWs with
    | '"' :: r1 =>
      match parseStringBody r1 with
      | none => none
      | some (key, r2) =>
        match r2.dropWhile isJsonWs with
        | ':' :: r3 =>
          match parseValue fuel r3 with
          | none => none
          | some (v, r4) =>
            match r4.dropWhile isJsonWs with
            | ',' :: r5 =>
              match parseMembers fuel r5 with
              | some (ms, r6) => some ((key, v) :: ms, r6)
              | none => none
            | '\x7d' :: r5 => some ([(key, v)], r5)
            | _ => none
        | _ => none
    | _ => none

end

/-- Model of the platform builtin `JSON.parse`: parse a complete JSON
text (one value surrounded by optional whitespace); `none` models a
thrown `SyntaxError`. -/
def jsonParse (s : String) : Option Json :=
  match parseValue (s.data.length + 1) s.data with
  | some (v, rest) => if rest.dropWhile isJsonWs = [] then some v else none
  | none => none

/-! ### Model of the extraction regular expression

`extractTestArrayFromText` matches `text` against the JavaScript
regular expression `/"test"\s*:\s*(\[[^\]]*\])/` and uses the first
capture group.  Because `:` and `[` are not whitespace and `]` is
excluded from the bracket run, every greedy star here is
backtracking-free, so the regex engine is modelled by a deterministic
matcher tried at each successive start position (leftmost match). -/

/-- The JavaScript regex whitespace class `\s` (ECMAScript
`WhiteSpace` ∪ `LineTerminator`). -/
def isJsWs (c : Char) : Bool :=
  c = ' ' || c = '\t' || c = '\n' || c = '\x0b' || c = '\x0c' || c = '\r' ||
  c.toNat = 0xa0 || c.toNat = 0x1680 ||
  (0x2000 ≤ c.toNat && c.toNat ≤ 0x200a) ||
  c.toNat = 0x2028 || c.toNat = 0x2029 || c.toNat = 0x202f ||
  c.toNat = 0x205f || c.toNat = 0x3000 || c.toNat = 0xfeff

/-- The literal part `"test"` of the pattern, as characters. -/
def testKeyToken : List Char := ['"', 't', 'e', 's', 't', '"']

/-- Try to match `/"test"\s*:\s*(\[[^\]]*\])/` at the start of the
input; on success return the text of capture group 1. -/
def matchPat (cs : List Char) : Option (List Char) :=
  match stripToken testKeyToken cs with
  | none => none
  | some r1 =>
    match r1.dropWhile isJsWs with
    | ':' :: r3 =>
      match r3.dropWhile isJsWs with
      | '[' :: r5 =>
        match r5.dropWhile (fun c => c != ']') with
        | ']' :: _ => some ('[' :: (r5.takeWhile (fun c => c != ']') ++ [']']))
        | _ => none
      | _ => none
    | _ => none

/-- Search for the leftmost match of the pattern, as
`String.prototype.match` does, returning capture group 1. -/
def findGroup : List Char → Option (List Char)
  | [] => none
  | c :: cs =>
    match matchPat (c :: cs) with
    | some g => some g
    | none => findGroup cs

/-- Embedding of `extractTestArrayFromText` (src/TextGen.js:120-138):
match the text against `/"test"\s*:\s*(\[[^\]]*\])/`; if group 1 is
present, `JSON.parse` it (a parse error is caught and logged); with no
match, log that no test array was found.  Returns the extracted value
(`none` models the JavaScript `null`) together with the `console.error`
diagnostics emitted. -/
def extractTestArrayFromText (text : String) : Option Json × List String :=
  match findGroup text.data with
  | some g =>
    match jsonParse (String.mk g) with
    | some testArray => (some testArray, [])
    | none => (none, ["Failed to parse the extracted array:"])
  | none => (none, ["No test array found in the text."])

/-! ### Model of `JSON.stringify` -/

/-- Serialization of one character inside a JSON string literal, as
`JSON.stringify` quotes it. -/
def escapeChar (c : Char) : List Char :=
  if c = '"' then ['\\', '"']
  else if c = '\\' then ['\\', '\\']
  else if c = '\x08' then ['\\', 'b']
  else if c = '\x0c' then ['\\', 'f']
  else if c = '\n' then ['\\', 'n']
  else if c = '\r' then ['\\', 'r']
  else if c = '\t' then ['\\', 't']
  else if c.toNat < 32 then
    let hexDigit (n : Nat) : Char :=
      if n < 10 then Char.ofNat (48 + n) else Char.ofNat (87 + n - 10)
    ['\\', 'u', '0', '0', hexDigit (c.toNat / 16), hexDigit (c.toNat % 16)]
  else [c]

/-- Serialization of a whole JSON string literal, quotes included. -/
def quoteString (s : String) : String :=
  String.mk ('"' :: s.data.foldr (fun c acc => escapeChar c ++ acc) ['"'])

/-- Decimal rendering of a mantissa/exponent number, matching the
JavaScript number-to-string conversion on the exact decimal values this
program can produce (integers render with no point or exponent). -/
def numToString (m e : Int) : String :=
  if e ≥ 0 then (m * (10 : Int) ^ e.toNat).repr
  else
    let k := (-e).toNat
    let a := m.natAbs
    let ip := a / 10 ^ k
    let fp := a % 10 ^ k
    let fracDigits := (Nat.toDigits 10 fp).map id
    let padded := List.replicate (k - fracDigits.length) '0' ++ fracDigits
    let trimmed := (padded.reverse.dropWhile (fun c => c = '0')).reverse
    let sign := if m < 0 then "-" else ""
    if trimmed.isEmpty then sign ++ ip.repr
    else sign ++ ip.repr ++ "." ++ String.mk trimmed

mutual

/-- Model of the platform builtin `JSON.stringify` on JSON values (no
indentation, members in insertion order). -/
def jsonStringify : Json → String
  | .null => "null"
  | .bool true => "true"
  | .bool false => "false"
  | .num m e => numToString m e
  | .str s => quoteString s
  | .arr es => "[" ++ stringifyElems es ++ "]"
  | .obj ms => "\x7b" ++ stringifyMembers ms ++ "\x7d"

/-- Comma-separated serialization of array elements. -/
def stringifyElems : List Json → String
  | [] => ""
  | [v] => jsonStringify v
  | v :: rest => jsonStringify v ++ "," ++ stringifyElems rest

/-- Comma-separated serialization of object members. -/
def stringifyMembers : List (String × Json) → String
  | [] => ""
  | [(k, v)] => quoteString k ++ ":" ++ jsonStringify v
  | (k, v) :: rest => quoteString k ++ ":" ++ jsonStringify v ++ "," ++ stringifyMembers rest

end

/-! ### The dispatcher `makeRequest`

The HTTP transport (`fetch` plus `response.json()`) is an external
oracle: a function from the issued request to an outcome.  The
dispatcher records the requests it issues and the `console.error`
entries it emits. -/

/-- An outbound HTTP request as `fetch` receives it. -/
structure HttpRequest where
  url : String
  method : String
  headers : List (String × String)
  body : String
deriving DecidableEq

/-- What the transport does with a request: the promise rejects
(`netThrow`), or a response arrives with success flag `ok` and a body
whose JSON decoding is `bodyJson` (`none` models `response.json()`
rejecting). -/
inductive HttpOutcome where
  | netThrow : HttpOutcome
  | response (ok : Bool) (bodyJson : Option Json) : HttpOutcome

/-- Result of one `makeRequest` call: the value returned to the caller
(`none` models `null`), the requests issued to the transport, and the
`console.error` diagnostics emitted. -/
structure RequestTrace where
  result : Option Json
  requests : List HttpRequest
  logs : List String

/-- The fixed endpoint of the dispatcher (src/TextGen.js:17). -/
def apiUrl : String := "http://localhost:11434/api/chat"

/-- The single request `makeRequest` builds for a payload
(src/TextGen.js:17-23): POST to the fixed endpoint, a JSON content
type header, and the `JSON.stringify` of the payload as body. -/
def requestFor (payload : Json) : HttpRequest :=
  { url := apiUrl
    method := "POST"
    headers := [("Content-Type", "application/json")]
    body := jsonStringify payload }

/-- The `try` block of `makeRequest` (src/TextGen.js:16-30): await the
fetch, throw on a non-ok status, then await and return the decoded JSON
body.  `Except.error` carries the message of the thrown error. -/
def makeRequestTry (transport : HttpRequest → HttpOutcome) (req : HttpRequest) :
    Except String Json :=
  match transport req with
  | .netThrow => Except.error "fetch failed"
  | .response ok bodyJson =>
    if !ok then Except.error "Network response was not ok"
    else
      match bodyJson with
      | some data => Except.ok data
      | none => Except.error "invalid json body"

/-- Embedding of `makeRequest` (src/TextGen.js:15-35): run the try
block; the catch-all handler logs `console.error("Error:", error)` once
and returns `null`.  No exception escapes: the function is total. -/
def makeRequest (transport : HttpRequest → HttpOutcome) (payload : Json) : RequestTrace :=
  let req := requestFor payload
  match makeRequestTry transport req with
  | Except.ok data => { result := some data, requests := [req], logs := [] }
  | Except.error e => { result := none, requests := [req], logs := ["Error: " ++ e] }

/-! ### Payload builders and exported operations -/

/-- One conversational turn (`{ role, content }`). -/
structure Turn where
  role : String
  content : String
deriving DecidableEq

/-- The request payload object (`{ model, messages, stream }`). -/
structure Payload where
  model : String
  messages : List Turn
  stream : Bool
deriving DecidableEq

/-- The JSON value a payload object denotes when serialized. -/
def Turn.toJson (t : Turn) : Json :=
  Json.obj [("role", Json.str t.role), ("content", Json.str t.content)]

/-- The JSON value of the whole payload object. -/
def Payload.toJson (p : Payload) : Json :=
  Json.obj
    [("model", Json.str p.model),
     ("messages", Json.arr (p.messages.map Turn.toJson)),
     ("stream", Json.bool p.stream)]

/-- The payload object built by `codeSuggestions`
(src/TextGen.js:68-89). -/
def codeSuggestionsPayload (code fm lang : String) : Payload :=
  { model := "codellama"
    messages :=
      [{ role := "user"
         content := "As an assistant, please review the provided " ++ lang ++
           " code, focusing on " ++ fm }
       , { role := "assistant"
           content := "Hi, please provide the code that you want suggestions for" }
       , { role := "user", content := code }]
    stream := false }

/-- Embedding of `codeSuggestions` (src/TextGen.js:67-92). -/
def codeSuggestions (transport : HttpRequest → HttpOutcome)
    (code fm lang : String) : RequestTrace :=
  makeRequest transport (codeSuggestionsPayload code fm lang).toJson

/-- The payload object built by `makeTestCases` (src/TextGen.js:151-169).
The JavaScript count is a number concatenated into the prompt; it is
modelled as a natural number rendered in decimal, which is exactly the
JavaScript number-to-string conversion on the counts this program is
called with. -/
def makeTestCasesPayload (question fm : String) (numOfCases : Nat) : Payload :=
  { model := "codellama"
    messages :=
      [{ role := "user"
         content := "Without any comments or context, Generate " ++ toString numOfCases ++
           " test cases for this question, (" ++ question ++
           " ), include cases such as edge cases, large cases. The output should strictly be in JSON format, adhering to the template provided: ( " ++
           fm ++
           " )\n *** ONLY RETURN CODE <<<< DO NOT number it or anything, simply return code. Make sure to have" ++
           toString numOfCases ++ "  tests cases and all parameters ***" }]
    stream := false }

/-- Embedding of `makeTestCases` (src/TextGen.js:149-172). -/
def makeTestCases (transport : HttpRequest → HttpOutcome)
    (question fm : String) (numOfCases : Nat) : RequestTrace :=
  makeRequest transport (makeTestCasesPayload question fm numOfCases).toJson

/-- The payload object built by `textGen` (src/TextGen.js:211-220). -/
def textGenPayload (prompt : String) : Payload :=
  { model := "codellama"
    messages := [{ role := "user", content := prompt }]
    stream := false }

/-- Embedding of `textGen` (src/TextGen.js:209-223). -/
def textGen (transport : HttpRequest → HttpOutcome) (prompt : String) : RequestTrace :=
  makeRequest transport (textGenPayload prompt).toJson

/-! ### File loader -/

/-- Embedding of `loadFileToString` (src/TextGen.js:47-55).  The
filesystem is an oracle mapping a path to its UTF-8 contents, `none`
when `fs.readFile` rejects (missing or unreadable file).  Returns the
contents (or `null`) and the `console.error` diagnostics emitted. -/
def loadFileToString (fileSys : String → Option String) (filePath : String) :
    Option String × List String :=
  match fileSys filePath with
  | some fileContents => (some fileContents, [])
  | none => (none, ["Error reading file:"])

/-! ### Printing call sites

`printCodeSug` and `printTestCases` read `results.message.content`
without a null check and run outside any `try`; a JavaScript property
access on `null`/`undefined` throws `TypeError`, modelled by
`Except.error`.  A successful run returns the values passed to
`console.log`. -/

/-- JavaScript property access `v[key]` on a JSON value: throws on
`null`, looks up the last binding on objects (later duplicate keys win),
and yields `undefined` (`none`) on every other value. -/
def jsField : Json → String → Except String (Option Json)
  | Json.null, _ => Except.error "TypeError: cannot read properties of null"
  | Json.obj members, key =>
    Except.ok ((members.reverse.find? (fun kv => kv.1 == key)).map Prod.snd)
  | _, _ => Except.ok none

/-- JavaScript property access on a possibly-`undefined` value. -/
def jsFieldOpt : Option Json → String → Except String (Option Json)
  | none, _ => Except.error "TypeError: cannot read properties of undefined"
  | some v, key => jsField v key

/-- Embedding of `printCodeSug` (src/TextGen.js:105-109): call
`codeSuggestions`, then `console.log(results.message.content)`.  When
the dispatcher returned `null`, the access `results.message` throws. -/
def printCodeSug (transport : HttpRequest → HttpOutcome)
    (code fm lang : String) : Except String (List (Option Json)) :=
  match (codeSuggestions transport code fm lang).result with
  | none => Except.error "TypeError: cannot read properties of null"
  | some results => do
    let message ← jsField results "message"
    let content ← jsFieldOpt message "content"
    Except.ok [content]

/-- Embedding of `printTestCases` (src/TextGen.js:186-195): call
`makeTestCases`, extract the test array from
`results.message.content`, then log the full results and the extracted
tests.  When the dispatcher returned `null`, the access
`results.message` throws; when `content` is not a string,
`text.match` throws. -/
def printTestCases (transport : HttpRequest → HttpOutcome)
    (question fm : String) (numOfCases : Nat) : Except String (List (Option Json)) :=
  match (makeTestCases transport question fm numOfCases).result with
  | none => Except.error "TypeError: cannot read properties of null"
  | some results => do
    let message ← jsField results "message"
    let content ← jsFieldOpt message "content"
    match content with
    | some (Json.str text) =>
      Except.ok [some results, (extractTestArrayFromText text).1]
    | _ => Except.error "TypeError: text.match is not a function"

/-! ### Auxiliary predicates used by the theorems -/

/-- Whether the input starts with the given literal character run. -/
def startsWithSeq (tok cs : List Char) : Bool :=
  (stripToken tok cs).isSome

/-- Whether the given literal character run occurs anywhere in the
input. -/
def containsSeq (tok : List Char) : List Char → Bool
  | [] => startsWithSeq tok []
  | c :: cs => startsWithSeq tok (c :: cs) || containsSeq tok cs

/-- Substring containment on strings, stated by explicit splitting. -/
def strContains (needle hay : String) : Prop :=
  ∃ s t, s ++ needle.data ++ t = hay.data

/-- A transport whose promise always rejects (the inference server is
down), used to exhibit concrete failing executions. -/
def failingTransport : HttpRequest → HttpOutcome :=
  fun _ => HttpOutcome.netThrow

/-- Number of closing brackets in a character run. -/
def closeCount (cs : List Char) : Nat :=
  cs.count ']'

mutual

/-- Number of array nodes in a JSON value. -/
def arrCount : Json → Nat
  | .arr es => 1 + arrCountList es
  | .obj ms => arrCountMembers ms
  | _ => 0

/-- Total number of array nodes across a list of JSON values. -/
def arrCountList : List Json → Nat
  | [] => 0
  | v :: vs => arrCount v + arrCountList vs

/-- Total number of array nodes across object members. -/
def arrCountMembers : List (String × Json) → Nat
  | [] => 0
  | (_, v) :: ms => arrCount v + arrCountMembers ms

end

/-! ### Supporting lemmas -/

/-- Both branches of the dispatcher record the same single issued
request. -/
theorem makeRequest_requests (transport : HttpRequest → HttpOutcome) (payload : Json) :
    (makeRequest transport payload).requests = [requestFor payload] := by
  unfold makeRequest
  cases h : makeRequestTry transport (requestFor payload) <;> simp [h]

/-- String concatenation is associative. -/
theorem strAppend_assoc (a b c : String) : a ++ b ++ c = a ++ (b ++ c) := by
  apply String.ext
  simp [String.data_append]

/-- Substring containment follows from an explicit three-way split at
the string level. -/
theorem strContains_of_split (needle pre post hay : String)
    (h : pre ++ needle ++ post = hay) : strContains needle hay :=
  ⟨pre.data, post.data, by rw [← h]; simp [String.data_append, List.append_assoc]⟩

/-- A successful literal strip means the literal is a prefix and the
remainder is exactly what follows it. -/
theorem stripToken_eq : ∀ (ts cs r : List Char), stripToken ts cs = some r → cs = ts ++ r := by
  intro ts
  induction ts with
  | nil =>
    intro cs r h
    simp only [stripToken, Option.some.injEq] at h
    simpa using h
  | cons t ts ih =>
    intro cs r h
    cases cs with
    | nil => simp [stripToken] at h
    | cons c cs' =>
      unfold stripToken at h
      by_cases hc : c = t
      · rw [if_pos hc] at h
        have := ih cs' r h
        simp [hc, this]
      · rw [if_neg hc] at h
        exact absurd h (by simp)

/-- Stripping a literal from itself plus a remainder succeeds. -/
theorem stripToken_append : ∀ (ts r : List Char), stripToken ts (ts ++ r) = some r := by
  intro ts r
  induction ts with
  | nil => rfl
  | cons t ts ih => simp [stripToken, ih]

/-- `startsWithSeq` decides the prefix property. -/
theorem startsWithSeq_iff (tok cs : List Char) :
    startsWithSeq tok cs = true ↔ ∃ r, cs = tok ++ r := by
  unfold startsWithSeq
  constructor
  · intro h
    cases hs : stripToken tok cs with
    | none => rw [hs] at h; simp at h
    | some r => exact ⟨r, stripToken_eq tok cs r hs⟩
  · rintro ⟨r, rfl⟩
    rw [stripToken_append]
    rfl

/-- `containsSeq` decides the occurs-as-a-contiguous-run property. -/
theorem containsSeq_iff (tok : List Char) : ∀ cs : List Char,
    containsSeq tok cs = true ↔ ∃ s t, s ++ tok ++ t = cs := by
  intro cs
  induction cs with
  | nil =>
    constructor
    · intro h
      obtain ⟨r, hr⟩ := (startsWithSeq_iff tok []).1 h
      obtain ⟨h1, h2⟩ := List.append_eq_nil.mp hr.symm
      exact ⟨[], [], by simp [h1, h2]⟩
    · rintro ⟨s, t, hst⟩
      obtain ⟨h1, h2⟩ := List.append_eq_nil.mp hst
      obtain ⟨h3, h4⟩ := List.append_eq_nil.mp h1
      exact (startsWithSeq_iff tok []).2 ⟨[], by simp [h4]⟩
  | cons c cs' ih =>
    unfold containsSeq
    simp only [Bool.or_eq_true, startsWithSeq_iff, ih]
    constructor
    · rintro (⟨r, hr⟩ | ⟨s, t, hst⟩)
      · exact ⟨[], r, by rw [hr]; simp⟩
      · exact ⟨c :: s, t, by simp only [List.cons_append]; rw [hst]⟩
    · rintro ⟨s, t, hst⟩
      cases s with
      | nil => exact Or.inl ⟨t, by simpa using hst.symm⟩
      | cons a s' =>
        simp only [List.cons_append] at hst
        injection hst with h1 h2
        exact Or.inr ⟨s', t, h2⟩

/-- Any capture the pattern produces is a bracket, a bracket-free run,
and a closing bracket. -/
theorem matchPat_shape (cs g : List Char) (h : matchPat cs = some g) :
    ∃ r5 : List Char, g = '[' :: (r5.takeWhile (fun c => c != ']') ++ [']']) := by
  unfold matchPat at h
  repeat' split at h
  all_goals try exact Option.noConfusion h
  injection h with h
  exact ⟨_, h.symm⟩

/-- Any capture the leftmost search produces has the `matchPat`
shape. -/
theorem findGroup_shape : ∀ (cs g : List Char), findGroup cs = some g →
    ∃ r5 : List Char, g = '[' :: (r5.takeWhile (fun c => c != ']') ++ [']']) := by
  intro cs
  induction cs with
  | nil => intro g h; simp [findGroup] at h
  | cons c cs' ih =>
    intro g h
    unfold findGroup at h
    cases hm : matchPat (c :: cs') with
    | some g' =>
      rw [hm] at h
      injection h with h
      exact h ▸ matchPat_shape _ _ hm
    | none =>
      rw [hm] at h
      exact ih g h

/-- One step of the leftmost search: a failed match at the current
position moves on to the next position. -/
theorem findGroup_cons_of_none (c : Char) (cs : List Char)
    (h : matchPat (c :: cs) = none) : findGroup (c :: cs) = findGroup cs := by
  simp only [findGroup, h]

/-- The leftmost search skips any leading region in which the pattern
matches at no position. -/
theorem findGroup_append_of_none : ∀ (l rest : List Char),
    (∀ i, i < l.length → matchPat (l.drop i ++ rest) = none) →
    findGroup (l ++ rest) = findGroup rest := by
  intro l
  induction l with
  | nil => intro rest _; rfl
  | cons c l' ih =>
    intro rest h
    rw [List.cons_append]
    rw [findGroup_cons_of_none c (l' ++ rest) (h 0 (by simp))]
    exact ih rest (fun i hi => h (i + 1) (by simp only [List.length_cons]; omega))

/-- Whatever the array parser returns is an array value. -/
theorem parseArrStart_isArr (fuel : Nat) (cs : List Char) (v : Json) (rest : List Char)
    (h : parseArrStart fuel cs = some (v, rest)) : ∃ es, v = Json.arr es := by
  cases fuel with
  | zero => exact Option.noConfusion h
  | succ fuel =>
    unfold parseArrStart at h
    repeat' split at h
    all_goals try exact Option.noConfusion h
    all_goals simp only [Option.some.injEq, Prod.mk.injEq] at h
    all_goals exact ⟨_, h.1.symm⟩

/-- A successful `JSON.parse` of a text that starts with an opening
bracket yields an array value. -/
theorem jsonParse_bracket_isArr (tail : List Char) (w : Json)
    (h : jsonParse (String.mk ('[' :: tail)) = some w) : ∃ es, w = Json.arr es := by
  unfold jsonParse at h
  split at h
  case h_2 => exact Option.noConfusion h
  case h_1 v0 rest0 heq =>
    split at h
    case isFalse => exact Option.noConfusion h
    case isTrue =>
      injection h with h
      have h2 : parseArrStart (('[' :: tail).length) tail = some (v0, rest0) := heq
      exact h ▸ parseArrStart_isArr _ _ _ _ h2

/-- Composition of consumed-prefix splits. -/
theorem splitSuffix_trans {a b c : List Char} (h1 : ∃ p, b = p ++ a)
    (h2 : ∃ q, c = q ++ b) : ∃ r, c = r ++ a := by
  obtain ⟨p, hp⟩ := h1
  obtain ⟨q, hq⟩ := h2
  exact ⟨q ++ p, by rw [hq, hp, List.append_assoc]⟩

/-- `dropWhile` only discards a prefix. -/
theorem dropWhileSuffix (p : Char → Bool) (l : List Char) :
    ∃ pre, l = pre ++ l.dropWhile p :=
  ⟨l.takeWhile p, (List.takeWhile_append_dropWhile (p := p) (l := l)).symm⟩

/-- The sign parser only discards a prefix. -/
theorem parseSign_split (cs : List Char) : ∃ pre, cs = pre ++ (parseSign cs).2 := by
  unfold parseSign
  split
  · exact ⟨['-'], rfl⟩
  · exact ⟨[], rfl⟩

/-- The integer-part parser only discards a prefix. -/
theorem parseIntPart_split (cs ds rest : List Char)
    (h : parseIntPart cs = some (ds, rest)) : ∃ pre, cs = pre ++ rest := by
  cases cs with
  | nil => exact Option.noConfusion h
  | cons c r =>
    simp only [parseIntPart] at h
    split_ifs at h with h1 h2
    all_goals simp only [Option.some.injEq, Prod.mk.injEq] at h
    all_goals obtain ⟨hd, hr⟩ := h
    all_goals subst hr
    · exact ⟨[c], rfl⟩
    · exact ⟨c :: r.takeWhile Char.isDigit,
        by simp only [List.cons_append, List.takeWhile_append_dropWhile]⟩

/-- The fraction-part parser only discards a prefix. -/
theorem parseFracPart_split (cs ds rest : List Char)
    (h : parseFracPart cs = some (ds, rest)) : ∃ pre, cs = pre ++ rest := by
  unfold parseFracPart at h
  split at h
  case h_1 r =>
    split_ifs at h with h1
    simp only [Option.some.injEq, Prod.mk.injEq] at h
    obtain ⟨hd, hr⟩ := h
    subst hr
    exact ⟨'.' :: r.takeWhile Char.isDigit,
      by simp only [List.cons_append, List.takeWhile_append_dropWhile]⟩
  case h_2 =>
    simp only [Option.some.injEq, Prod.mk.injEq] at h
    obtain ⟨hd, hr⟩ := h
    subst hr
    exact ⟨[], rfl⟩

/-- The exponent-sign parser only discards a prefix. -/
theorem parseExpSign_split (r : List Char) : ∃ pre, r = pre ++ (parseExpSign r).2 := by
  unfold parseExpSign
  split
  · exact ⟨['+'], rfl⟩
  · exact ⟨['-'], rfl⟩
  · exact ⟨[], rfl⟩

/-- The exponent-part parser only discards a prefix. -/
theorem parseExpPart_split (cs : List Char) (ev : Int) (rest : List Char)
    (h : parseExpPart cs = some (ev, rest)) : ∃ pre, cs = pre ++ rest := by
  cases cs with
  | nil =>
    simp only [parseExpPart, Option.some.injEq, Prod.mk.injEq] at h
    obtain ⟨hv, hr⟩ := h
    subst hr
    exact ⟨[], rfl⟩
  | cons e r =>
    simp only [parseExpPart] at h
    split_ifs at h with h1 h2
    · simp only [Option.some.injEq, Prod.mk.injEq] at h
      obtain ⟨hv, hr⟩ := h
      subst hr
      refine splitSuffix_trans ?_ (⟨[e], rfl⟩ : ∃ q, e :: r = q ++ r)
      exact splitSuffix_trans (dropWhileSuffix Char.isDigit (parseExpSign r).2)
        (parseExpSign_split r)
    · simp only [Option.some.injEq, Prod.mk.injEq] at h
      obtain ⟨hv, hr⟩ := h
      subst hr
      exact ⟨[], rfl⟩

/-- The number parser only discards a prefix, and returns a number
value. -/
theorem parseNumber_split (cs : List Char) (v : Json) (rest : List Char)
    (h : parseNumber cs = some (v, rest)) :
    (∃ pre, cs = pre ++ rest) ∧ ∃ m e, v = Json.num m e := by
  simp only [parseNumber] at h
  split at h
  case h_1 heq => exact Option.noConfusion h
  case h_2 ds cs2 heq =>
    split at h
    case h_1 => exact Option.noConfusion h
    case h_2 fds cs3 heqf =>
      split at h
      case h_1 => exact Option.noConfusion h
      case h_2 ev cs4 heqe =>
        simp only [Option.some.injEq, Prod.mk.injEq] at h
        obtain ⟨hv, hr⟩ := h
        subst hr
        constructor
        · refine splitSuffix_trans (splitSuffix_trans (splitSuffix_trans
            (parseExpPart_split cs3 ev cs4 heqe)
            (parseFracPart_split cs2 fds cs3 heqf))
            (parseIntPart_split (parseSign cs).2 ds cs2 heq))
            (parseSign_split cs)
        · exact ⟨_, _, hv.symm⟩

/-- The escape decoder only discards a prefix. -/
theorem decodeEscape_split (r : List Char) (d : Char) (r2 : List Char)
    (h : decodeEscape r = some (d, r2)) : ∃ pre, r = pre ++ r2 := by
  cases r with
  | nil => exact Option.noConfusion h
  | cons e r' =>
    simp only [decodeEscape] at h
    split_ifs at h with h1 h2 h3 h4 h5 h6 h7 h8 h9
    -- bring the `\u` branch to the front; the eight single-character
    -- escapes share one closing step
    rotate_left 8
    · split at h
      · rename_i a b c3 d4 r5
        repeat' split at h
        all_goals try exact Option.noConfusion h
        simp only [Option.some.injEq, Prod.mk.injEq] at h
        obtain ⟨hd, hr⟩ := h
        subst hr
        exact ⟨e :: a :: b :: c3 :: d4 :: [], rfl⟩
      · exact Option.noConfusion h
    all_goals simp only [Option.some.injEq, Prod.mk.injEq] at h
    all_goals obtain ⟨hd, hr⟩ := h
    all_goals subst hr
    all_goals exact ⟨[e], rfl⟩

/-- The string-body scanner only discards a prefix. -/
theorem parseStringChars_split : ∀ (fuel : Nat) (cs s r : List Char),
    parseStringChars fuel cs = some (s, r) → ∃ pre, cs = pre ++ r := by
  intro fuel
  induction fuel with
  | zero => intro cs s r h; exact Option.noConfusion h
  | succ fuel ih =>
    intro cs s r h
    cases cs with
    | nil => exact Option.noConfusion h
    | cons c rest =>
      simp only [parseStringChars] at h
      split_ifs at h with h1 h2 h3
      · simp only [Option.some.injEq, Prod.mk.injEq] at h
        obtain ⟨hd, hr⟩ := h
        subst hr
        exact ⟨[c], rfl⟩
      · split at h
        · rename_i d r2 heq
          split at h
          · rename_i s' r3 heq2
            simp only [Option.some.injEq, Prod.mk.injEq] at h
            obtain ⟨hd, hr⟩ := h
            subst hr
            refine splitSuffix_trans ?_ (⟨[c], rfl⟩ : ∃ q, c :: rest = q ++ rest)
            exact splitSuffix_trans (ih r2 s' r3 heq2) (decodeEscape_split rest d r2 heq)
          · exact Option.noConfusion h
        · exact Option.noConfusion h
      · split at h
        · rename_i s' r2 heq
          simp only [Option.some.injEq, Prod.mk.injEq] at h
          obtain ⟨hd, hr⟩ := h
          subst hr
          refine splitSuffix_trans ?_ (⟨[c], rfl⟩ : ∃ q, c :: rest = q ++ rest)
          exact ih rest s' r2 heq
        · exact Option.noConfusion h

/-- Bracket counting distributes over concatenation. -/
theorem closeCount_append (a b : List Char) :
    closeCount (a ++ b) = closeCount a + closeCount b := by
  unfold closeCount
  exact List.count_append _ _ _

/-- Prepending a character cannot decrease the bracket count. -/
theorem closeCount_le_cons (c : Char) (l : List Char) :
    closeCount l ≤ closeCount (c :: l) := by
  unfold closeCount
  rw [List.count_cons]
  split <;> omega

/-- A run kept by `takeWhile (· != ']')` has no closing bracket. -/
theorem closeCount_takeWhile_ne (l : List Char) :
    closeCount (l.takeWhile (fun c => c != ']')) = 0 := by
  unfold closeCount
  rw [List.count_eq_zero]
  intro hmem
  have := List.mem_takeWhile_imp hmem
  simp at this

/-- The string-literal parser only discards a prefix. -/
theorem parseStringBody_split (cs : List Char) (s : String) (r : List Char)
    (h : parseStringBody cs = some (s, r)) : ∃ pre, cs = pre ++ r := by
  unfold parseStringBody at h
  split at h
  case h_2 => exact Option.noConfusion h
  case h_1 s' r' heq =>
    simp only [Option.some.injEq, Prod.mk.injEq] at h
    rw [← h.2]
    exact parseStringChars_split _ _ _ _ heq

/-- Parsing consumes at least one closing bracket for every array node
it builds: a successful parse splits its input into a consumed prefix
and the rest, and the consumed prefix carries at least as many `]` as
the produced value has array nodes (one extra for a pending element
list, whose own closing bracket is consumed by the loop). -/
theorem parse_consumes_brackets : ∀ fuel : Nat,
    (∀ cs v rest, parseValue fuel cs = some (v, rest) →
        ∃ pre, cs = pre ++ rest ∧ arrCount v ≤ closeCount pre) ∧
    (∀ cs v rest, parseArrStart fuel cs = some (v, rest) →
        ∃ pre, cs = pre ++ rest ∧ arrCount v ≤ closeCount pre) ∧
    (∀ cs vs rest, parseElems fuel cs = some (vs, rest) →
        ∃ pre, cs = pre ++ rest ∧ arrCountList vs + 1 ≤ closeCount pre) ∧
    (∀ cs v rest, parseObjStart fuel cs = some (v, rest) →
        ∃ pre, cs = pre ++ rest ∧ arrCount v ≤ closeCount pre) ∧
    (∀ cs ms rest, parseMembers fuel cs = some (ms, rest) →
        ∃ pre, cs = pre ++ rest ∧ arrCountMembers ms ≤ closeCount pre) := by
  intro fuel
  induction fuel with
  | zero =>
    exact ⟨fun _ _ _ h => Option.noConfusion h, fun _ _ _ h => Option.noConfusion h,
      fun _ _ _ h => Option.noConfusion h, fun _ _ _ h => Option.noConfusion h,
      fun _ _ _ h => Option.noConfusion h⟩
  | succ fuel ih =>
    obtain ⟨ihv, iha, ihe, iho, ihm⟩ := ih
    refine ⟨?_, ?_, ?_, ?_, ?_⟩
    -- parseValue
    · intro cs v rest h
      simp only [parseValue] at h
      split at h
      · exact Option.noConfusion h
      · rename_i c rest' heq
        have hcs : cs = cs.takeWhile isJsonWs ++ (c :: rest') := by
          rw [← heq]
          exact (List.takeWhile_append_dropWhile _ _).symm
        split_ifs at h with hbrace hbracket hquote ht hf hn hnum
        · -- object member
          obtain ⟨pre, hsplit, hbound⟩ := iho rest' v rest h
          refine ⟨cs.takeWhile isJsonWs ++ [c] ++ pre, ?_, ?_⟩
          · conv_lhs => rw [hcs]
            rw [hsplit]
            simp [List.append_assoc]
          · simp only [closeCount_append]
            omega
        · -- array
          obtain ⟨pre, hsplit, hbound⟩ := iha rest' v rest h
          refine ⟨cs.takeWhile isJsonWs ++ [c] ++ pre, ?_, ?_⟩
          · conv_lhs => rw [hcs]
            rw [hsplit]
            simp [List.append_assoc]
          · simp only [closeCount_append]
            omega
        · -- string literal
          split at h
          · rename_i s r heqs
            simp only [Option.some.injEq, Prod.mk.injEq] at h
            obtain ⟨hv, hr⟩ := h
            subst hr
            obtain ⟨pre, hsplit⟩ := parseStringBody_split rest' s r heqs
            refine ⟨cs.takeWhile isJsonWs ++ [c] ++ pre, ?_, ?_⟩
            · conv_lhs => rw [hcs]
              rw [hsplit]
              simp [List.append_assoc]
            · rw [← hv]
              simp [arrCount]
          · exact Option.noConfusion h
        · -- literal `true`
          split at h
          · rename_i r heqs
            simp only [Option.some.injEq, Prod.mk.injEq] at h
            obtain ⟨hv, hr⟩ := h
            subst hr
            have hsplit := stripToken_eq _ _ _ heqs
            refine ⟨cs.takeWhile isJsonWs ++ [c] ++ ['r', 'u', 'e'], ?_, ?_⟩
            · conv_lhs => rw [hcs]
              rw [hsplit]
              simp [List.append_assoc]
            · rw [← hv]
              simp [arrCount]
          · exact Option.noConfusion h
        · -- literal `false`
          split at h
          · rename_i r heqs
            simp only [Option.some.injEq, Prod.mk.injEq] at h
            obtain ⟨hv, hr⟩ := h
            subst hr
            have hsplit := stripToken_eq _ _ _ heqs
            refine ⟨cs.takeWhile isJsonWs ++ [c] ++ ['a', 'l', 's', 'e'], ?_, ?_⟩
            · conv_lhs => rw [hcs]
              rw [hsplit]
              simp [List.append_assoc]
            · rw [← hv]
              simp [arrCount]
          · exact Option.noConfusion h
        · -- literal `null`
          split at h
          · rename_i r heqs
            simp only [Option.some.injEq, Prod.mk.injEq] at h
            obtain ⟨hv, hr⟩ := h
            subst hr
            have hsplit := stripToken_eq _ _ _ heqs
            refine ⟨cs.takeWhile isJsonWs ++ [c] ++ ['u', 'l', 'l'], ?_, ?_⟩
            · conv_lhs => rw [hcs]
              rw [hsplit]
              simp [List.append_assoc]
            · rw [← hv]
              simp [arrCount]
          · exact Option.noConfusion h
        · -- number
          obtain ⟨⟨pre, hsplit⟩, m, e, hv⟩ := parseNumber_split _ _ _ h
          refine ⟨cs.takeWhile isJsonWs ++ pre, ?_, ?_⟩
          · conv_lhs => rw [hcs]
            rw [hsplit]
            simp [List.append_assoc]
          · rw [hv]
            simp [arrCount]
    -- parseArrStart
    · intro cs v rest h
      simp only [parseArrStart] at h
      split at h
      · rename_i restP heq
        simp only [Option.some.injEq, Prod.mk.injEq] at h
        obtain ⟨hv, hr⟩ := h
        subst hr
        have hcs : cs = cs.takeWhile isJsonWs ++ (']' :: restP) := by
          rw [← heq]
          exact (List.takeWhile_append_dropWhile _ _).symm
        refine ⟨cs.takeWhile isJsonWs ++ [']'], ?_, ?_⟩
        · conv_lhs => rw [hcs]
          simp [List.append_assoc]
        · rw [← hv]
          simp only [closeCount_append]
          have h2 : closeCount [']'] = 1 := rfl
          have h3 : arrCount (Json.arr []) = 1 := by simp [arrCount, arrCountList]
          omega
      · split at h
        · rename_i vs r heqe
          simp only [Option.some.injEq, Prod.mk.injEq] at h
          obtain ⟨hv, hr⟩ := h
          subst hr
          obtain ⟨pre, hsplit, hbound⟩ := ihe cs vs r heqe
          refine ⟨pre, hsplit, ?_⟩
          rw [← hv]
          have h3 : arrCount (Json.arr vs) = 1 + arrCountList vs := by simp [arrCount]
          omega
        · exact Option.noConfusion h
    -- parseElems
    · intro cs vs rest h
      simp only [parseElems] at h
      split at h
      · exact Option.noConfusion h
      · rename_i v1 rest1 heqv
        obtain ⟨p1, hs1, hb1⟩ := ihv cs v1 rest1 heqv
        split at h
        · -- comma: more elements follow
          rename_i r2 heq2
          split at h
          · rename_i vs2 r3 heqe
            simp only [Option.some.injEq, Prod.mk.injEq] at h
            obtain ⟨hv, hr⟩ := h
            subst hr
            obtain ⟨p2, hs2, hb2⟩ := ihe r2 vs2 r3 heqe
            have hr1 : rest1 = rest1.takeWhile isJsonWs ++ (',' :: r2) := by
              rw [← heq2]
              exact (List.takeWhile_append_dropWhile _ _).symm
            refine ⟨p1 ++ (rest1.takeWhile isJsonWs ++ [','] ++ p2), ?_, ?_⟩
            · conv_lhs => rw [hs1, hr1]
              rw [hs2]
              simp [List.append_assoc]
            · rw [← hv]
              simp only [closeCount_append, arrCountList]
              omega
          · exact Option.noConfusion h
        · -- closing bracket: last element
          rename_i r2 heq2
          simp only [Option.some.injEq, Prod.mk.injEq] at h
          obtain ⟨hv, hr⟩ := h
          subst hr
          have hr1 : rest1 = rest1.takeWhile isJsonWs ++ (']' :: r2) := by
            rw [← heq2]
            exact (List.takeWhile_append_dropWhile _ _).symm
          refine ⟨p1 ++ (rest1.takeWhile isJsonWs ++ [']']), ?_, ?_⟩
          · conv_lhs => rw [hs1, hr1]
            simp [List.append_assoc]
          · rw [← hv]
            simp only [closeCount_append, arrCountList]
            have h2 : closeCount [']'] = 1 := rfl
            omega
        · exact Option.noConfusion h
    -- parseObjStart
    · intro cs v rest h
      simp only [parseObjStart] at h
      split at h
      · rename_i restP heq
        simp only [Option.some.injEq, Prod.mk.injEq] at h
        obtain ⟨hv, hr⟩ := h
        subst hr
        have hcs : cs = cs.takeWhile isJsonWs ++ ('\x7d' :: restP) := by
          rw [← heq]
          exact (List.takeWhile_append_dropWhile _ _).symm
        refine ⟨cs.takeWhile isJsonWs ++ ['\x7d'], ?_, ?_⟩
        · conv_lhs => rw [hcs]
          simp [List.append_assoc]
        · rw [← hv]
          simp [arrCount, arrCountMembers]
      · split at h
        · rename_i ms r heqm
          simp only [Option.some.injEq, Prod.mk.injEq] at h
          obtain ⟨hv, hr⟩ := h
          subst hr
          obtain ⟨pre, hsplit, hbound⟩ := ihm cs ms r heqm
          refine ⟨pre, hsplit, ?_⟩
          rw [← hv]
          have h3 : arrCount (Json.obj ms) = arrCountMembers ms := by simp [arrCount]
          omega
        · exact Option.noConfusion h
    -- parseMembers
    · intro cs ms rest h
      simp only [parseMembers] at h
      split at h
      · rename_i r1 heq1
        have hcs : cs = cs.takeWhile isJsonWs ++ ('"' :: r1) := by
          rw [← heq1]
          exact (List.takeWhile_append_dropWhile _ _).symm
        split at h
        · exact Option.noConfusion h
        · rename_i key r2 heqs
          obtain ⟨pS, hsS⟩ := parseStringBody_split r1 key r2 heqs
          split at h
          · rename_i r3 heq3
            have hr2 : r2 = r2.takeWhile isJsonWs ++ (':' :: r3) := by
              rw [← heq3]
              exact (List.takeWhile_append_dropWhile _ _).symm
            split at h
            · exact Option.noConfusion h
            · rename_i v1 r4 heqv
              obtain ⟨pV, hsV, hbV⟩ := ihv r3 v1 r4 heqv
              split at h
              · -- comma: more members follow
                rename_i r5 heq5
                have hr4 : r4 = r4.takeWhile isJsonWs ++ (',' :: r5) := by
                  rw [← heq5]
                  exact (List.takeWhile_append_dropWhile _ _).symm
                split at h
                · rename_i ms1 r6 heqm
                  simp only [Option.some.injEq, Prod.mk.injEq] at h
                  obtain ⟨hv, hr⟩ := h
                  subst hr
                  obtain ⟨pM, hsM, hbM⟩ := ihm r5 ms1 r6 heqm
                  refine ⟨cs.takeWhile isJsonWs ++ ['"'] ++ pS ++
                    (r2.takeWhile isJsonWs ++ [':']) ++ pV ++
                    (r4.takeWhile isJsonWs ++ [',']) ++ pM, ?_, ?_⟩
                  · conv_lhs => rw [hcs, hsS, hr2, hsV, hr4, hsM]
                    simp [List.append_assoc]
                  · rw [← hv]
                    simp only [closeCount_append, arrCountMembers]
                    omega
                · exact Option.noConfusion h
              · -- closing brace: last member
                rename_i r5 heq5
                simp only [Option.some.injEq, Prod.mk.injEq] at h
                obtain ⟨hv, hr⟩ := h
                subst hr
                have hr4 : r4 = r4.takeWhile isJsonWs ++ ('\x7d' :: r5) := by
                  rw [← heq5]
                  exact (List.takeWhile_append_dropWhile _ _).symm
                refine ⟨cs.takeWhile isJsonWs ++ ['"'] ++ pS ++
                  (r2.takeWhile isJsonWs ++ [':']) ++ pV ++
                  (r4.takeWhile isJsonWs ++ ['\x7d']), ?_, ?_⟩
                · conv_lhs => rw [hcs, hsS, hr2, hsV, hr4]
                  simp [List.append_assoc]
                · rw [← hv]
                  simp only [closeCount_append, arrCountMembers]
                  omega
              · exact Option.noConfusion h
          · exact Option.noConfusion h
      · exact Option.noConfusion h

/-- A complete successful `JSON.parse` yields a value with at most as
many array nodes as the text has closing brackets. -/
theorem jsonParse_arrCount (s : String) (v : Json) (h : jsonParse s = some v) :
    arrCount v ≤ closeCount s.data := by
  unfold jsonParse at h
  split at h
  case h_2 => exact Option.noConfusion h
  case h_1 v0 rest0 heq =>
    split at h
    · injection h with h
      obtain ⟨pre, hsplit, hbound⟩ :=
        (parse_consumes_brackets (s.data.length + 1)).1 s.data v0 rest0 heq
      subst h
      rw [hsplit, closeCount_append]
      omega
    · exact Option.noConfusion h

/-! ### Theorems -/

/-- C1: for every payload object, the dispatcher `makeRequest` issues
exactly one HTTP POST, to the fixed endpoint
`http://localhost:11434/api/chat`, whose body is the JSON serialization
of that payload. -/
theorem makeRequest_issues_single_post
    (transport : HttpRequest → HttpOutcome) (payload : Json) :
    (makeRequest transport payload).requests =
      [{ url := "http://localhost:11434/api/chat"
         method := "POST"
         headers := [("Content-Type", "application/json")]
         body := jsonStringify payload }] := by
  rw [makeRequest_requests]
  rfl

/-- C2: whenever the transport throws or the endpoint answers with a
non-success status, `makeRequest` returns `null` and emits exactly one
diagnostic log entry; the catch-all handler means no exception reaches
the caller (the embedded function is total, with no error channel). -/
theorem makeRequest_failure_absent_logged
    (transport : HttpRequest → HttpOutcome) (payload : Json)
    (h : transport (requestFor payload) = HttpOutcome.netThrow ∨
         ∃ bodyJson, transport (requestFor payload) = HttpOutcome.response false bodyJson) :
    (makeRequest transport payload).result = none ∧
      (makeRequest transport payload).logs.length = 1 := by
  rcases h with h | ⟨bodyJson, h⟩ <;>
    simp [makeRequest, makeRequestTry, h]

/-- Witness for C2: a concrete always-rejecting transport makes the
dispatcher return `null` with one log entry. -/
theorem makeRequest_failure_absent_logged_witness :
    (makeRequest failingTransport Json.null).result = none ∧
      (makeRequest failingTransport Json.null).logs.length = 1 :=
  makeRequest_failure_absent_logged failingTransport Json.null (Or.inl rfl)

/-- C4: when the pattern (quoted key `"test"`, optional whitespace,
colon, bracketed run) matches nowhere in the text, the extractor
returns `null` and logs the one diagnostic `No test array found in the
text.`, without raising. -/
theorem extract_no_match_logs (text : String)
    (h : findGroup text.data = none) :
    extractTestArrayFromText text = (none, ["No test array found in the text."]) := by
  unfold extractTestArrayFromText
  rw [h]

/-- Witness for C4 at a concrete pattern-free text. -/
theorem extract_no_match_logs_witness :
    extractTestArrayFromText "the model returned no JSON at all" =
      (none, ["No test array found in the text."]) :=
  extract_no_match_logs "the model returned no JSON at all" rfl

/-- C6: the file loader returns the exact contents when the read
succeeds, and returns `null` with the one diagnostic
`Error reading file:` when the read fails, without raising. -/
theorem loadFileToString_contract
    (fileSys : String → Option String) (filePath : String) :
    (∀ contents, fileSys filePath = some contents →
        loadFileToString fileSys filePath = (some contents, [])) ∧
      (fileSys filePath = none →
        loadFileToString fileSys filePath = (none, ["Error reading file:"])) := by
  constructor
  · intro contents h
    unfold loadFileToString
    rw [h]
  · intro h
    unfold loadFileToString
    rw [h]

/-- Witness for C6 on a concrete two-file filesystem: one readable
path and one missing path. -/
theorem loadFileToString_contract_witness :
    loadFileToString
        (fun p => if p = "generate/formats/test.txt" then some "id,input,output" else none)
        "generate/formats/test.txt" = (some "id,input,output", []) ∧
      loadFileToString
        (fun p => if p = "generate/formats/test.txt" then some "id,input,output" else none)
        "generate/formats/none.txt" = (none, ["Error reading file:"]) :=
  ⟨(loadFileToString_contract
      (fun p => if p = "generate/formats/test.txt" then some "id,input,output" else none)
      "generate/formats/test.txt").1 "id,input,output" rfl,
   (loadFileToString_contract
      (fun p => if p = "generate/formats/test.txt" then some "id,input,output" else none)
      "generate/formats/none.txt").2 rfl⟩

/-- C7: `makeTestCases` with count 10 hands the dispatcher exactly one
request for its payload, and that payload's messages list is a single
user turn whose content contains the question, the format template,
and the literal text `10` as substrings. -/
theorem makeTestCases_single_user_turn
    (transport : HttpRequest → HttpOutcome) (question fm : String) :
    (makeTestCases transport question fm 10).requests =
        [requestFor (makeTestCasesPayload question fm 10).toJson] ∧
      ∃ content,
        (makeTestCasesPayload question fm 10).messages =
            [{ role := "user", content := content }] ∧
          strContains question content ∧
          strContains fm content ∧
          strContains "10" content := by
  constructor
  · exact makeRequest_requests transport (makeTestCasesPayload question fm 10).toJson
  · refine ⟨_, rfl, ?_, ?_, ?_⟩
    · refine strContains_of_split question
        ("Without any comments or context, Generate " ++ toString (10 : Nat) ++
          " test cases for this question, (")
        (" ), include cases such as edge cases, large cases. The output should strictly be in JSON format, adhering to the template provided: ( " ++
          fm ++
          " )\n *** ONLY RETURN CODE <<<< DO NOT number it or anything, simply return code. Make sure to have" ++
          toString (10 : Nat) ++ "  tests cases and all parameters ***") _ ?_
      simp only [strAppend_assoc]
    · refine strContains_of_split fm
        ("Without any comments or context, Generate " ++ toString (10 : Nat) ++
          " test cases for this question, (" ++ question ++
          " ), include cases such as edge cases, large cases. The output should strictly be in JSON format, adhering to the template provided: ( ")
        (" )\n *** ONLY RETURN CODE <<<< DO NOT number it or anything, simply return code. Make sure to have" ++
          toString (10 : Nat) ++ "  tests cases and all parameters ***") _ ?_
      simp only [strAppend_assoc]
    · rw [show ("10" : String) = toString (10 : Nat) from rfl]
      refine strContains_of_split (toString (10 : Nat))
        "Without any comments or context, Generate "
        (" test cases for this question, (" ++ question ++
          " ), include cases such as edge cases, large cases. The output should strictly be in JSON format, adhering to the template provided: ( " ++
          fm ++
          " )\n *** ONLY RETURN CODE <<<< DO NOT number it or anything, simply return code. Make sure to have" ++
          toString (10 : Nat) ++ "  tests cases and all parameters ***") _ ?_
      simp only [strAppend_assoc]

/-- C8: in the concrete execution where the inference server is down,
the dispatcher returns `null`, and both printing call sites, which
read `results.message.content` with no null check, hit an unhandled
`TypeError` instead of handling the failure. -/
theorem print_call_sites_null_deref :
    (codeSuggestions failingTransport "const x = 1" "Bug Identification" "Javascript").result
        = none ∧
      printCodeSug failingTransport "const x = 1" "Bug Identification" "Javascript" =
        Except.error "TypeError: cannot read properties of null" ∧
      (makeTestCases failingTransport "sum two numbers" "id,input,output" 10).result = none ∧
      printTestCases failingTransport "sum two numbers" "id,input,output" 10 =
        Except.error "TypeError: cannot read properties of null" :=
  ⟨rfl, rfl, rfl, rfl⟩

/-- C10: all three request-sending operations build their payloads
with model name `codellama` and streaming flag `false`, for all
inputs. -/
theorem payloads_fixed_model_and_stream
    (code fm lang question fm2 prompt : String) (numOfCases : Nat) :
    (codeSuggestionsPayload code fm lang).model = "codellama" ∧
      (codeSuggestionsPayload code fm lang).stream = false ∧
      (makeTestCasesPayload question fm2 numOfCases).model = "codellama" ∧
      (makeTestCasesPayload question fm2 numOfCases).stream = false ∧
      (textGenPayload prompt).model = "codellama" ∧
      (textGenPayload prompt).stream = false :=
  ⟨rfl, rfl, rfl, rfl, rfl, rfl⟩

/-- C9: a non-null extraction result is always a JSON array value: the
captured substring starts with an opening bracket, so a successful
parse can only produce an array, never an object, number, or string. -/
theorem extract_success_is_array (text : String) (v : Json)
    (h : (extractTestArrayFromText text).1 = some v) : ∃ es, v = Json.arr es := by
  unfold extractTestArrayFromText at h
  split at h
  case h_2 => exact Option.noConfusion h
  case h_1 g heq =>
    split at h
    case h_2 => exact Option.noConfusion h
    case h_1 t hp =>
      injection h with h
      obtain ⟨r5, rfl⟩ := findGroup_shape _ _ heq
      exact h ▸ jsonParse_bracket_isArr _ _ hp

/-- Witness for C9 at a concrete text: the extracted value is the
array `[1]`. -/
theorem extract_success_is_array_witness :
    (extractTestArrayFromText "\"test\": [1]").1 = some (Json.arr [Json.num 1 0]) ∧
      ∃ es, Json.arr [Json.num 1 0] = Json.arr es :=
  ⟨rfl, extract_success_is_array "\"test\": [1]" (Json.arr [Json.num 1 0]) rfl⟩

/-- C5: on the documented nested-array example the bracket match
truncates at the first closing bracket, so the parse fails and the
extractor returns `null` after logging the parse failure (for any
trailing text); and in full generality, any value the extractor does
return carries at most one array node, so it can never be the full
nested array `[[1,2], [3,4]]` (three array nodes) or any other nested
array. -/
theorem extract_nested_truncates :
    (∀ post : String,
        extractTestArrayFromText ("\"test\": [[1,2], [3,4]]" ++ post) =
          (none, ["Failed to parse the extracted array:"])) ∧
    (∀ (text : String) (v : Json),
        (extractTestArrayFromText text).1 = some v → arrCount v ≤ 1) := by
  constructor
  · intro post
    obtain ⟨pdata⟩ := post
    rfl
  · intro text v h
    unfold extractTestArrayFromText at h
    split at h
    case h_2 => exact Option.noConfusion h
    case h_1 g heq =>
      split at h
      case h_2 => exact Option.noConfusion h
      case h_1 t hp =>
        injection h with h
        obtain ⟨r5, hg⟩ := findGroup_shape _ _ heq
        have h1 := closeCount_takeWhile_ne r5
        have hcc : closeCount g = closeCount (r5.takeWhile (fun c => c != ']')) + 1 := by
          rw [hg]
          unfold closeCount
          simp [List.count_cons, List.count_append]
        have hb := jsonParse_arrCount (String.mk g) t hp
        have hdata : (String.mk g).data = g := rfl
        rw [hdata] at hb
        subst h
        omega

/-- Witness for C5's general part: a concrete extraction returning a
flat array, whose array-node count obeys the bound. -/
theorem extract_nested_truncates_witness :
    (extractTestArrayFromText "reply \"test\": [7]").1 = some (Json.arr [Json.num 7 0]) ∧
      arrCount (Json.arr [Json.num 7 0]) ≤ 1 :=
  ⟨rfl, extract_nested_truncates.2 "reply \"test\": [7]" (Json.arr [Json.num 7 0]) rfl⟩

/-- C3 (amended): for every text of the form
`pre ++ "test": [1, 2, 3] ++ post` in which the six-character token
`"test"` does not occur anywhere in `pre`, the extractor returns the
array `[1, 2, 3]`.  (The amendment excludes texts where an earlier
match of the pattern shadows the literal occurrence.) -/
theorem extract_literal_after_clean_text (pre post : String)
    (h : containsSeq testKeyToken pre.data = false) :
    (extractTestArrayFromText (pre ++ "\"test\": [1, 2, 3]" ++ post)).1 =
      some (Json.arr [Json.num 1 0, Json.num 2 0, Json.num 3 0]) := by
  have hdata : (pre ++ "\"test\": [1, 2, 3]" ++ post).data =
      pre.data ++ (("\"test\": [1, 2, 3]" : String).data ++ post.data) := by
    rw [String.data_append, String.data_append, List.append_assoc]
  have hnomatch : ∀ i, i < pre.data.length →
      matchPat (pre.data.drop i ++ (("\"test\": [1, 2, 3]" : String).data ++ post.data)) =
        none := by
    intro i hi
    cases hm : matchPat
        (pre.data.drop i ++ (("\"test\": [1, 2, 3]" : String).data ++ post.data)) with
    | none => rfl
    | some g =>
      exfalso
      cases hs : stripToken testKeyToken
          (pre.data.drop i ++ (("\"test\": [1, 2, 3]" : String).data ++ post.data)) with
      | none =>
        unfold matchPat at hm
        rw [hs] at hm
        exact Option.noConfusion hm
      | some r =>
        have hstream := stripToken_eq _ _ _ hs
        have hdlen : 1 ≤ (pre.data.drop i).length := by
          rw [List.length_drop]
          omega
        by_cases h6 : 6 ≤ (pre.data.drop i).length
        · -- the token would lie entirely inside `pre`
          have hsplit6 : (pre.data.drop i).take 6 ++ ((pre.data.drop i).drop 6 ++
              (("\"test\": [1, 2, 3]" : String).data ++ post.data)) = testKeyToken ++ r := by
            rw [← List.append_assoc, List.take_append_drop]
            exact hstream
          have hlen6 : ((pre.data.drop i).take 6).length = testKeyToken.length := by
            rw [List.length_take]
            simp only [testKeyToken, List.length_cons, List.length_nil]
            omega
          obtain ⟨htok, -⟩ := List.append_inj hsplit6 hlen6
          have hocc : pre.data.take i ++ testKeyToken ++ (pre.data.drop i).drop 6 =
              pre.data := by
            rw [← htok, List.append_assoc, List.take_append_drop, List.take_append_drop]
          have hcontains : containsSeq testKeyToken pre.data = true :=
            (containsSeq_iff _ _).2 ⟨pre.data.take i, (pre.data.drop i).drop 6, hocc⟩
          rw [h] at hcontains
          exact Bool.noConfusion hcontains
        · -- the token would straddle the boundary
          have hsplitn : testKeyToken.take (pre.data.drop i).length ++
              (testKeyToken.drop (pre.data.drop i).length ++ r) =
              pre.data.drop i ++ (("\"test\": [1, 2, 3]" : String).data ++ post.data) := by
            rw [← List.append_assoc, List.take_append_drop]
            exact hstream.symm
          have hlenn : (testKeyToken.take (pre.data.drop i).length).length =
              (pre.data.drop i).length := by
            rw [List.length_take]
            simp only [testKeyToken, List.length_cons, List.length_nil]
            omega
          obtain ⟨htok, hrest⟩ := List.append_inj hsplitn hlenn
          have h15 : (pre.data.drop i).length = 1 ∨ (pre.data.drop i).length = 2 ∨
              (pre.data.drop i).length = 3 ∨ (pre.data.drop i).length = 4 ∨
              (pre.data.drop i).length = 5 := by omega
          rcases h15 with hk | hk | hk | hk | hk
          · rw [hk] at hrest
            injection hrest with hchar hrr
            exact absurd hchar (by decide)
          · rw [hk] at hrest
            injection hrest with hchar hrr
            exact absurd hchar (by decide)
          · rw [hk] at hrest
            injection hrest with hchar hrr
            exact absurd hchar (by decide)
          · rw [hk] at hrest
            injection hrest with hchar hrr
            exact absurd hchar (by decide)
          · -- `pre` ends with `"test`: the closing quote is supplied by
            -- the literal, but no colon follows, so the match dies
            rw [hk] at htok
            rw [← htok] at hm
            have hnone : matchPat (testKeyToken.take 5 ++
                (("\"test\": [1, 2, 3]" : String).data ++ post.data)) = none := by
              obtain ⟨postD⟩ := post
              rfl
            rw [hnone] at hm
            exact Option.noConfusion hm
  have hskip := findGroup_append_of_none pre.data
    (("\"test\": [1, 2, 3]" : String).data ++ post.data) hnomatch
  have hfind : findGroup (("\"test\": [1, 2, 3]" : String).data ++ post.data) =
      some (("[1, 2, 3]" : String).data) := by
    obtain ⟨postD⟩ := post
    rfl
  unfold extractTestArrayFromText
  rw [hdata, hskip, hfind]
  rfl

/-- Witness for C3 (amended) on a concrete surrounding text. -/
theorem extract_literal_after_clean_text_witness :
    containsSeq testKeyToken ("Here are the tests: " : String).data = false ∧
      (extractTestArrayFromText
          ("Here are the tests: " ++ "\"test\": [1, 2, 3]" ++ " -- done")).1 =
        some (Json.arr [Json.num 1 0, Json.num 2 0, Json.num 3 0]) :=
  ⟨rfl, extract_literal_after_clean_text "Here are the tests: " " -- done" rfl⟩

/-- C3 counterexample: a text that does contain the substring
`"test": [1, 2, 3]` but on which the extractor returns the earlier
match `[5]`, not `[1, 2, 3]`: the regex takes the leftmost match. -/
theorem extract_first_match_shadows_literal :
    containsSeq ("\"test\": [1, 2, 3]").data
        ("\"test\": [5] \"test\": [1, 2, 3]").data = true ∧
      (extractTestArrayFromText "\"test\": [5] \"test\": [1, 2, 3]").1 =
        some (Json.arr [Json.num 5 0]) ∧
      (extractTestArrayFromText "\"test\": [5] \"test\": [1, 2, 3]").1 ≠
        some (Json.arr [Json.num 1 0, Json.num 2 0, Json.num 3 0]) := by
  refine ⟨rfl, rfl, ?_⟩
  intro h
  rw [show (extractTestArrayFromText "\"test\": [5] \"test\": [1, 2, 3]").1 =
      some (Json.arr [Json.num 5 0]) from rfl] at h
  simp at h

end TextGen
